import Mathlib

/-!
Shallow embedding of the go-logging library (vaughan0/go-logging) and proofs
about its logger hierarchy, dispatch and configuration code.

The embedding follows the current source files:
  - the main package file (Level constants, Logger, doLog, Log, AddOutput,
    Configure, Get, Root),
  - config.go (newOutputterConfig, config.apply).

Machine integers: Go Level is an int; all Level arithmetic here stays far from
overflow, so Level is embedded as Int.  Wall-clock time and runtime.Caller
(file/line) are environment inputs that no claim depends on; the Message
embedding keeps the level, the text and the logger name.  Outputters perform
side effects; the embedding records which Outputter values are invoked, in
order, which is all the claims speak about.
-/

namespace Logging

/-! ## Levels

Go source:

  const (
    Undefined Level = 0
    Fatal           = (-iota * 100) - 1
    Error
    Warn
    Notice
    Info
    Debug
    Trace
  )

iota is 1 at the Fatal line, so Fatal = -101, Error = -201, Warn = -301,
Notice = -401, Info = -501, Debug = -601, Trace = -701, and Undefined = 0.
-/

abbrev Level := Int

def Undefined : Level := 0
def Fatal : Level := -101
def Error : Level := -201
def Warn : Level := -301
def Notice : Level := -401
def Info : Level := -501
def Debug : Level := -601
def Trace : Level := -701

def namedLevels : List Level := [Trace, Debug, Info, Notice, Warn, Error, Fatal]

/-- ReverseLevelStrings, built in the Go init function from LevelStrings. -/
def reverseLevelStrings (s : String) : Option Level :=
  if s = "FATAL" then some Fatal
  else if s = "ERROR" then some Error
  else if s = "WARN" then some Warn
  else if s = "NOTICE" then some Notice
  else if s = "INFO" then some Info
  else if s = "DEBUG" then some Debug
  else if s = "TRACE" then some Trace
  else none

/-! ## Outputters and messages -/

/-- Section of an INI file: key-value pairs (Go: ini.Section, a string map). -/
abbrev IniSection := List (String × String)

/-- Runtime representation of an Outputter.  Plugin-built sinks are abstract
values tagged with the plugin name and its options; ThresholdOutputter
(part of the source) wraps another Outputter with a level floor. -/
inductive Outputter where
  | plugin (typeName : String) (options : IniSection)
  | thresholdWrap (lvl : Level) (inner : Outputter)
deriving DecidableEq

/-- Message: the fields the claims mention (Level, Msg, Logger identity).
Time / File / Line are environment inputs (time.Now, runtime.Caller). -/
structure Message where
  level : Level
  msg : String
  loggerName : String
deriving DecidableEq

/-! ## The Logger tree

Go Logger struct: Name, Threshold, NoPropagate, parent, children (string map),
outputs (slice).  The child map is embedded as an association list; the parent
pointer is represented, where dispatch needs it, by the explicit list of
ancestors from the node up to the root.
-/

inductive Logger where
  | mk (name : String) (threshold : Level) (noPropagate : Bool)
       (outputs : List Outputter) (children : List (String × Logger))

def Logger.name : Logger → String
  | .mk n _ _ _ _ => n

def Logger.threshold : Logger → Level
  | .mk _ t _ _ _ => t

def Logger.noPropagate : Logger → Bool
  | .mk _ _ np _ _ => np

def Logger.outputs : Logger → List Outputter
  | .mk _ _ _ o _ => o

def Logger.children : Logger → List (String × Logger)
  | .mk _ _ _ _ c => c

def Logger.setThreshold : Logger → Level → Logger
  | .mk n _ np o c, t => .mk n t np o c

def Logger.setNoPropagate : Logger → Bool → Logger
  | .mk n t _ o c, np => .mk n t np o c

def Logger.setChildren : Logger → List (String × Logger) → Logger
  | .mk n t np o _, c => .mk n t np o c

/-- AddOutput appends to the output slice (source line: outputs = append(...)). -/
def Logger.AddOutput : Logger → Outputter → Logger
  | .mk n t np o c, out => .mk n t np (o ++ [out]) c

/-- newLogger: Name and parent set, Threshold left at the zero value 0,
which is the Undefined constant. -/
def newLogger (name : String) : Logger :=
  .mk name Undefined false [] []

/-- Root = newLogger("root", nil). -/
def Root : Logger := newLogger "root"

/-! ## Association list helpers (Go map reads and writes) -/

def lookupKV {α : Type} : List (String × α) → String → Option α
  | [], _ => none
  | (k, v) :: rest, key => if k = key then some v else lookupKV rest key

def updateChild : List (String × Logger) → String → Logger → List (String × Logger)
  | [], _, _ => []
  | (k, v) :: rest, key, nv =>
      if k = key then (k, nv) :: rest else (k, v) :: updateChild rest key nv

/-! ## Dispatch (doLog / Log)

doLog fires the outputs of the node, then, when NoPropagate is false and a
parent exists, recurses into the parent.  The chain argument is the node
followed by its ancestors up to the root.
-/

def doLog : List Logger → List Outputter
  | [] => []
  | l :: parents =>
      l.outputs ++ (if !l.noPropagate && !parents.isEmpty then doLog parents else [])

/-- Log: the threshold gate (return when Threshold is greater than the level),
then message construction and doLog.  none models the gated no-op in which no
Message value is constructed. -/
def Logger.Log (l : Logger) (parents : List Logger) (level : Level) (msgstr : String) :
    Option (Message × List Outputter) :=
  if l.threshold > level then none
  else some ({ level := level, msg := msgstr, loggerName := l.name }, doLog (l :: parents))

/-- Modelled from the spec wording of propagation, for comparison with doLog:
the nodes visited walking upward until the first node with noPropagate set
(inclusive) or until the root. -/
def propagationNodes : List Logger → List Logger
  | [] => []
  | l :: parents => if l.noPropagate then [l] else l :: propagationNodes parents

theorem doLog_eq_propagation (chain : List Logger) :
    doLog chain = ((propagationNodes chain).map Logger.outputs).flatten := by
  induction chain with
  | nil => rfl
  | cons l parents ih =>
      cases hnp : l.noPropagate with
      | true => simp [doLog, propagationNodes, hnp]
      | false =>
          cases parents with
          | nil => simp [doLog, propagationNodes, hnp]
          | cons p ps => simpa [doLog, propagationNodes, hnp] using ih

/-- C1: for a message at level x logged on node l: the own Outputters of l fire
iff x is at least the threshold of l (a below-threshold call returns none and
constructs no Message); when they fire, the very same Message goes to the
Outputters of every node on the upward chain, in attachment order at each
node, stopping after the first node (l included) with noPropagate true or at
the root, with no threshold of an ancestor consulted (the delivery list is
propagationNodes, which never reads a threshold). -/
theorem C1_log_dispatch (l : Logger) (parents : List Logger) (x : Level) (s : String) :
    (Logger.Log l parents x s = none ↔ x < l.threshold) ∧
    (l.threshold ≤ x →
      Logger.Log l parents x s =
        some ({ level := x, msg := s, loggerName := l.name },
              ((propagationNodes (l :: parents)).map Logger.outputs).flatten)) := by
  unfold Logger.Log
  by_cases hc : l.threshold > x
  · rw [if_pos hc]
    exact ⟨⟨fun _ => hc, fun _ => rfl⟩, fun hle => absurd hc (not_lt.mpr hle)⟩
  · rw [if_neg hc]
    refine ⟨⟨fun h => Option.noConfusion h, fun h => absurd h hc⟩, fun _ => ?_⟩
    rw [← doLog_eq_propagation]

def c1Parent : Logger := .mk "root" Undefined false [.plugin "console" []] []

def c1Node : Logger := .mk "a" Info false [.plugin "special" []] []

theorem C1_log_dispatch_witness :
    Logger.Log c1Node [c1Parent] Warn "m" =
      some ({ level := Warn, msg := "m", loggerName := c1Node.name },
            ((propagationNodes (c1Node :: [c1Parent])).map Logger.outputs).flatten) :=
  (C1_log_dispatch c1Node [c1Parent] Warn "m").2 (by decide)

/-- C2 counterexample: the claim asserts the Undefined sentinel is strictly
less than Trace as a Level value; in the source Undefined is 0 and Trace is
-701, so Undefined is not less than Trace. -/
theorem C2_counterexample : ¬ (Undefined < Trace) := by decide

/-- C2 (amended): the named levels are strictly ordered Trace < Debug < Info <
Notice < Warn < Error < Fatal, and the Undefined sentinel (0) is strictly
greater than the strongest real level Fatal, hence greater than every named
level, not less than Trace. -/
theorem C2_level_order :
    Trace < Debug ∧ Debug < Info ∧ Info < Notice ∧ Notice < Warn ∧
    Warn < Error ∧ Error < Fatal ∧ Fatal < Undefined := by decide

/-- C10: before any configuration has set a threshold every logger holds the
Undefined threshold 0 (newLogger leaves the zero value; Root is such a
logger), 0 is strictly greater than every default named level, and therefore
Log at any named level on any such logger is the gated no-op none, firing no
Outputter. -/
theorem C10_unconfigured_noop :
    (∀ n, (newLogger n).threshold = Undefined) ∧
    Root = newLogger "root" ∧
    Undefined = 0 ∧
    (∀ lvl ∈ namedLevels, lvl < Undefined) ∧
    (∀ (l : Logger) (parents : List Logger) (lvl : Level) (s : String),
        l.threshold = Undefined → lvl ∈ namedLevels →
        Logger.Log l parents lvl s = none) := by
  refine ⟨fun n => rfl, rfl, rfl, by decide, ?_⟩
  intro l parents lvl s hthr hlvl
  have hlt : lvl < Undefined := by
    simp only [namedLevels, List.mem_cons, List.not_mem_nil, or_false] at hlvl
    rcases hlvl with rfl | rfl | rfl | rfl | rfl | rfl | rfl <;> decide
  unfold Logger.Log
  rw [if_pos (by rw [hthr]; exact hlt)]

theorem C10_unconfigured_noop_witness :
    Logger.Log (newLogger "x") [] Info "hi" = none :=
  C10_unconfigured_noop.2.2.2.2 (newLogger "x") [] Info "hi" rfl (by decide)

/-! ## Projection lemmas -/

@[simp] theorem Logger.name_mk (n : String) (t : Level) (np : Bool)
    (o : List Outputter) (c : List (String × Logger)) : (Logger.mk n t np o c).name = n := rfl

@[simp] theorem Logger.threshold_mk (n : String) (t : Level) (np : Bool)
    (o : List Outputter) (c : List (String × Logger)) : (Logger.mk n t np o c).threshold = t := rfl

@[simp] theorem Logger.noPropagate_mk (n : String) (t : Level) (np : Bool)
    (o : List Outputter) (c : List (String × Logger)) : (Logger.mk n t np o c).noPropagate = np := rfl

@[simp] theorem Logger.outputs_mk (n : String) (t : Level) (np : Bool)
    (o : List Outputter) (c : List (String × Logger)) : (Logger.mk n t np o c).outputs = o := rfl

@[simp] theorem Logger.children_mk (n : String) (t : Level) (np : Bool)
    (o : List Outputter) (c : List (String × Logger)) : (Logger.mk n t np o c).children = c := rfl

@[simp] theorem Logger.setChildren_name (l : Logger) (c : List (String × Logger)) :
    (l.setChildren c).name = l.name := by cases l; rfl

@[simp] theorem Logger.setChildren_threshold (l : Logger) (c : List (String × Logger)) :
    (l.setChildren c).threshold = l.threshold := by cases l; rfl

@[simp] theorem Logger.setChildren_noPropagate (l : Logger) (c : List (String × Logger)) :
    (l.setChildren c).noPropagate = l.noPropagate := by cases l; rfl

@[simp] theorem Logger.setChildren_outputs (l : Logger) (c : List (String × Logger)) :
    (l.setChildren c).outputs = l.outputs := by cases l; rfl

@[simp] theorem Logger.setChildren_children (l : Logger) (c : List (String × Logger)) :
    (l.setChildren c).children = c := by cases l; rfl

@[simp] theorem Logger.setChildren_setChildren (l : Logger) (a b : List (String × Logger)) :
    (l.setChildren a).setChildren b = l.setChildren b := by cases l; rfl

@[simp] theorem Logger.setThreshold_fields (l : Logger) (t : Level) :
    (l.setThreshold t).name = l.name ∧ (l.setThreshold t).threshold = t ∧
    (l.setThreshold t).noPropagate = l.noPropagate ∧ (l.setThreshold t).outputs = l.outputs ∧
    (l.setThreshold t).children = l.children := by cases l; exact ⟨rfl, rfl, rfl, rfl, rfl⟩

@[simp] theorem Logger.setNoPropagate_fields (l : Logger) (b : Bool) :
    (l.setNoPropagate b).name = l.name ∧ (l.setNoPropagate b).threshold = l.threshold ∧
    (l.setNoPropagate b).noPropagate = b ∧ (l.setNoPropagate b).outputs = l.outputs ∧
    (l.setNoPropagate b).children = l.children := by cases l; exact ⟨rfl, rfl, rfl, rfl, rfl⟩

@[simp] theorem Logger.AddOutput_fields (l : Logger) (o : Outputter) :
    (l.AddOutput o).name = l.name ∧ (l.AddOutput o).threshold = l.threshold ∧
    (l.AddOutput o).noPropagate = l.noPropagate ∧ (l.AddOutput o).outputs = l.outputs ++ [o] ∧
    (l.AddOutput o).children = l.children := by cases l; exact ⟨rfl, rfl, rfl, rfl, rfl⟩

/-! ## Association list lemmas -/

theorem lookupKV_updateChild_self (cs : List (String × Logger)) (k : String) (v w : Logger)
    (h : lookupKV cs k = some w) : lookupKV (updateChild cs k v) k = some v := by
  induction cs with
  | nil => simp [lookupKV] at h
  | cons p rest ih =>
      obtain ⟨k1, v1⟩ := p
      by_cases hk : k1 = k
      · simp [lookupKV, updateChild, hk]
      · simp only [lookupKV, updateChild, if_neg hk] at h ⊢
        exact ih h

theorem lookupKV_updateChild_ne (cs : List (String × Logger)) (k k2 : String) (v : Logger)
    (h : k2 ≠ k) : lookupKV (updateChild cs k v) k2 = lookupKV cs k2 := by
  induction cs with
  | nil => rfl
  | cons p rest ih =>
      obtain ⟨k1, v1⟩ := p
      by_cases hk : k1 = k
      · subst hk
        simp [lookupKV, updateChild, if_neg (Ne.symm h)]
      · simp only [updateChild, if_neg hk, lookupKV]
        by_cases hk2 : k1 = k2
        · simp [hk2]
        · simp [if_neg hk2, ih]

theorem updateChild_self_eq (cs : List (String × Logger)) (k : String) (v : Logger)
    (h : lookupKV cs k = some v) : updateChild cs k v = cs := by
  induction cs with
  | nil => rfl
  | cons p rest ih =>
      obtain ⟨k1, v1⟩ := p
      by_cases hk : k1 = k
      · simp only [lookupKV, if_pos hk] at h
        cases h
        simp [updateChild, hk]
      · simp only [lookupKV, if_neg hk] at h
        simp [updateChild, if_neg hk, ih h]

theorem lookupKV_append_self {α : Type} (cs : List (String × α)) (k : String) (v : α)
    (h : lookupKV cs k = none) : lookupKV (cs ++ [(k, v)]) k = some v := by
  induction cs with
  | nil => simp [lookupKV]
  | cons p rest ih =>
      obtain ⟨k1, v1⟩ := p
      by_cases hk : k1 = k
      · simp [lookupKV, if_pos hk] at h
      · simp only [lookupKV, if_neg hk] at h
        simpa [lookupKV, if_neg hk] using ih h

theorem lookupKV_append_ne {α : Type} (cs : List (String × α)) (k k2 : String) (v : α)
    (h : k2 ≠ k) : lookupKV (cs ++ [(k, v)]) k2 = lookupKV cs k2 := by
  induction cs with
  | nil => simp [lookupKV, Ne.symm h]
  | cons p rest ih =>
      obtain ⟨k1, v1⟩ := p
      by_cases hk : k1 = k2
      · simp [lookupKV, if_pos hk]
      · simpa [lookupKV, if_neg hk] using ih

/-! ## Get

Go source walks down from Root along the dot-separated parts, creating missing
children with newLogger(fullname, logger); when the configured flag is set the
fresh child inherits the threshold of its parent at creation time.  The
functional embedding returns the updated tree together with the node the walk
ends on.
-/

/-- Go strings.Split with a one-character separator, on the character list of
the string (Split of the empty string yields one empty part, and a trailing
separator yields a trailing empty part, as in Go). -/
def splitOnChar (sep : Char) (s : String) : List String :=
  (s.data.splitOn sep).map fun cs => String.mk cs

/-- Go strings.ToUpper restricted to ASCII, on the character list. -/
def upper (s : String) : String :=
  String.mk (s.data.map Char.toUpper)

def getAux (fullname : String) (configured : Bool) : List String → Logger → Logger × Logger
  | [], l => (l, l)
  | part :: rest, l =>
      match lookupKV l.children part with
      | some c =>
          let pr := getAux fullname configured rest c
          (l.setChildren (updateChild l.children part pr.1), pr.2)
      | none =>
          let c0 := newLogger fullname
          let c1 := if configured then c0.setThreshold l.threshold else c0
          let pr := getAux fullname configured rest c1
          (l.setChildren (l.children ++ [(part, pr.1)]), pr.2)

def Get (fullname : String) (configured : Bool) (root : Logger) : Logger × Logger :=
  getAux fullname configured (splitOnChar '.' fullname) root

theorem getAux_idem (f : String) (cfg : Bool) (parts : List String) (l : Logger) :
    getAux f cfg parts (getAux f cfg parts l).1 = getAux f cfg parts l := by
  induction parts generalizing l with
  | nil => rfl
  | cons part rest ih =>
      cases h : lookupKV l.children part with
      | some c =>
          simp only [getAux, h]
          have h1 : lookupKV (updateChild l.children part (getAux f cfg rest c).1) part
              = some (getAux f cfg rest c).1 := lookupKV_updateChild_self _ _ _ _ h
          simp only [Logger.setChildren_children, Logger.setChildren_setChildren, h1, ih c,
            updateChild_self_eq _ _ _ h1]
      | none =>
          simp only [getAux, h]
          have h1 : lookupKV (l.children ++
                [(part, (getAux f cfg rest (if cfg then (newLogger f).setThreshold l.threshold
                  else newLogger f)).1)]) part
              = some (getAux f cfg rest (if cfg then (newLogger f).setThreshold l.threshold
                  else newLogger f)).1 := lookupKV_append_self _ _ _ h
          simp only [Logger.setChildren_children, Logger.setChildren_setChildren, h1, ih,
            updateChild_self_eq _ _ _ h1]

/-- C5: Get called twice with the same name returns the identical node and the
second call does not change the tree at all (in particular it creates no
duplicate node for an existing path): both the resulting tree and the returned
node of the second call are exactly those of the first call. -/
theorem C5_get_memoized (s : String) (cfg : Bool) (root : Logger) :
    Get s cfg (Get s cfg root).1 = Get s cfg root :=
  getAux_idem s cfg (splitOnChar '.' s) root

theorem getAux_fst_fields (f : String) (cfg : Bool) (parts : List String) (l : Logger) :
    ((getAux f cfg parts l).1).name = l.name ∧
    ((getAux f cfg parts l).1).threshold = l.threshold ∧
    ((getAux f cfg parts l).1).noPropagate = l.noPropagate ∧
    ((getAux f cfg parts l).1).outputs = l.outputs := by
  cases parts with
  | nil => exact ⟨rfl, rfl, rfl, rfl⟩
  | cons part rest =>
      cases h : lookupKV l.children part with
      | some c => simp [getAux, h]
      | none => simp [getAux, h]

/-- C6: a node newly created by Get holds the Undefined threshold when the
hierarchy-wide configuration pass has not yet completed, and otherwise the
current threshold of its immediate parent (the node it is inserted under) at
creation time.  Stated at the creation step of getAux, which is the code both
intermediate and final created nodes go through. -/
theorem C6_new_node_threshold (fullname : String) (cfg : Bool) (part : String)
    (rest : List String) (l : Logger)
    (hmiss : lookupKV l.children part = none) :
    ∃ c, lookupKV ((getAux fullname cfg (part :: rest) l).1).children part = some c ∧
      c.threshold = (if cfg then l.threshold else Undefined) := by
  simp only [getAux, hmiss, Logger.setChildren_children]
  refine ⟨_, lookupKV_append_self _ _ _ hmiss, ?_⟩
  rcases getAux_fst_fields fullname cfg rest
      (if cfg then (newLogger fullname).setThreshold l.threshold else newLogger fullname)
    with ⟨-, ht, -, -⟩
  rw [ht]
  cases cfg with
  | true => simp [newLogger]
  | false => simp [newLogger]

theorem C6_new_node_threshold_witness :
    (lookupKV (Logger.mk "root" Warn false [] []).children "a" = none) ∧
    ∃ c, lookupKV ((getAux "a" true ["a"] (Logger.mk "root" Warn false [] [])).1).children "a"
        = some c ∧ c.threshold = (if true then (Logger.mk "root" Warn false [] []).threshold
          else Undefined) :=
  ⟨rfl, C6_new_node_threshold "a" true "a" [] (Logger.mk "root" Warn false [] []) rfl⟩

/-- C7: the claim says the Name field of every node equals the dotted path
under which Get returns it.  The code passes the full requested name to every
implicitly created intermediate node, so after Get of the name a.b on a fresh
hierarchy, Get of the name a returns the intermediate node whose Name field is
a.b, not a.  This contradicts the documented meaning of the Name field (the
full name of the logger), so the code, not the claim, is wrong here. -/
theorem C7_intermediate_name :
    ((Get "a" false (Get "a.b" false Root).1).2).name = "a.b" ∧ "a.b" ≠ "a" :=
  ⟨by decide, by decide⟩

/-! ## Configure

Go source: Configure walks the children; a child whose Threshold is still
Undefined receives the (already updated) Threshold of its parent, then the
child is configured recursively.  configureFrom eff l rebuilds l with
threshold eff, where eff is the updated threshold of l itself; the top-level
Configure never changes the threshold of the node it starts from.
-/

mutual

def configureFrom (eff : Level) : Logger → Logger
  | .mk n _ np o cs => .mk n eff np o (configureChildren eff cs)

def configureChildren (eff : Level) : List (String × Logger) → List (String × Logger)
  | [] => []
  | (k, c) :: rest =>
      (k, configureFrom (if c.threshold = Undefined then eff else c.threshold) c) ::
        configureChildren eff rest

end

def Logger.Configure (l : Logger) : Logger := configureFrom l.threshold l

theorem configureFrom_threshold (eff : Level) (l : Logger) :
    (configureFrom eff l).threshold = eff := by
  cases l
  simp [configureFrom]

theorem configureFrom_fields (eff : Level) (l : Logger) :
    (configureFrom eff l).name = l.name ∧ (configureFrom eff l).noPropagate = l.noPropagate ∧
    (configureFrom eff l).outputs = l.outputs := by
  cases l
  simp [configureFrom]

theorem lookupKV_configureChildren (eff : Level) (cs : List (String × Logger)) (k : String) :
    lookupKV (configureChildren eff cs) k
      = (lookupKV cs k).map
          (fun c => configureFrom (if c.threshold = Undefined then eff else c.threshold) c) := by
  induction cs with
  | nil => rfl
  | cons p rest ih =>
      obtain ⟨k1, c1⟩ := p
      by_cases hk : k1 = k
      · simp [configureChildren, lookupKV, hk]
      · simp [configureChildren, lookupKV, hk, ih]

/-! ## Paths into the tree -/

def subtreeAt : Logger → List String → Option Logger
  | l, [] => some l
  | l, k :: p =>
      match lookupKV l.children k with
      | some c => subtreeAt c p
      | none => none

def thrAt (l : Logger) (p : List String) : Option Level :=
  (subtreeAt l p).map Logger.threshold

def outputsAt (l : Logger) (p : List String) : List Outputter :=
  match subtreeAt l p with
  | some c => c.outputs
  | none => []

/-- Effective threshold the configuration pass assigns along a path: the
threshold handed into the node at the path, starting from eff at the root of
the walk, replaced by the own threshold of each node passed through whenever
that threshold is not Undefined. -/
def effAtKey (eff : Level) : Logger → List String → Option Level
  | _, [] => some eff
  | l, k :: p =>
      match lookupKV l.children k with
      | some c => effAtKey (if c.threshold = Undefined then eff else c.threshold) c p
      | none => none

/-- Threshold of the nearest strict ancestor with a non-Undefined threshold at
configuration time (acc when no such ancestor exists on the walked path). -/
def ancThr (acc : Level) : Logger → List String → Option Level
  | _, [] => some acc
  | l, k :: p =>
      match lookupKV l.children k with
      | some c => ancThr (if l.threshold = Undefined then acc else l.threshold) c p
      | none => none

theorem thrAt_configureFrom (p : List String) : ∀ (eff : Level) (l : Logger),
    thrAt (configureFrom eff l) p = effAtKey eff l p := by
  induction p with
  | nil =>
      intro eff l
      simp [thrAt, subtreeAt, effAtKey, configureFrom_threshold]
  | cons k p ih =>
      intro eff l
      obtain ⟨n, t, np, o, cs⟩ := l
      simp only [thrAt, subtreeAt, effAtKey, configureFrom, Logger.children_mk,
        lookupKV_configureChildren]
      cases h : lookupKV cs k with
      | none => simp
      | some c =>
          simp only [Option.map_some']
          exact ih (if c.threshold = Undefined then eff else c.threshold) c

theorem subtreeAt_configureFrom (p : List String) : ∀ (eff : Level) (l c : Logger),
    subtreeAt l p = some c →
    ∃ e2, subtreeAt (configureFrom eff l) p = some (configureFrom e2 c) := by
  induction p with
  | nil =>
      intro eff l c h
      cases h
      exact ⟨eff, rfl⟩
  | cons k p ih =>
      intro eff l c h
      obtain ⟨n, t, np, o, cs⟩ := l
      simp only [subtreeAt, Logger.children_mk] at h
      cases h1 : lookupKV cs k with
      | none => rw [h1] at h; exact Option.noConfusion h
      | some c1 =>
          rw [h1] at h
          obtain ⟨e2, he⟩ :=
            ih (if c1.threshold = Undefined then eff else c1.threshold) c1 c h
          refine ⟨e2, ?_⟩
          simp only [subtreeAt, configureFrom, Logger.children_mk, lookupKV_configureChildren,
            h1, Option.map_some']
          exact he

theorem subtreeAt_configureFrom_none (p : List String) : ∀ (eff : Level) (l : Logger),
    subtreeAt l p = none → subtreeAt (configureFrom eff l) p = none := by
  induction p with
  | nil => intro eff l h; exact Option.noConfusion h
  | cons k p ih =>
      intro eff l h
      obtain ⟨n, t, np, o, cs⟩ := l
      simp only [subtreeAt, Logger.children_mk] at h
      simp only [subtreeAt, configureFrom, Logger.children_mk, lookupKV_configureChildren]
      cases h1 : lookupKV cs k with
      | none => simp
      | some c1 =>
          rw [h1] at h
          simp only [Option.map_some']
          exact ih _ c1 h

theorem effAtKey_eq_ancThr (p : List String) : ∀ (l : Logger) (acc : Level) (c : Logger),
    subtreeAt l p = some c → c.threshold = Undefined →
    effAtKey (if l.threshold = Undefined then acc else l.threshold) l p = ancThr acc l p := by
  induction p with
  | nil =>
      intro l acc c hsub hthr
      cases hsub
      simp [effAtKey, ancThr, hthr]
  | cons k p ih =>
      intro l acc c hsub hthr
      obtain ⟨n, t, np, o, cs⟩ := l
      simp only [subtreeAt, Logger.children_mk] at hsub
      simp only [effAtKey, ancThr, Logger.children_mk, Logger.threshold_mk]
      cases h1 : lookupKV cs k with
      | none => rfl
      | some c1 =>
          rw [h1] at hsub
          exact ih c1 (if t = Undefined then acc else t) c hsub hthr

/-- C3: after Configure runs from the root, every node whose threshold was
Undefined at configuration time carries the threshold of its nearest ancestor
that had a non-Undefined threshold at configuration time, and stays Undefined
when no such ancestor exists (ancThr starts its accumulator at Undefined). -/
theorem C3_inherit_nearest (l : Logger) (p : List String) (c : Logger)
    (hsub : subtreeAt l p = some c) (hthr : c.threshold = Undefined) :
    thrAt (Logger.Configure l) p = ancThr Undefined l p := by
  unfold Logger.Configure
  rw [thrAt_configureFrom]
  have h := effAtKey_eq_ancThr p l Undefined c hsub hthr
  by_cases hl : l.threshold = Undefined
  · rw [← h, if_pos hl, hl]
  · rw [← h, if_neg hl]

def c3Leaf : Logger := .mk "a.b" Undefined false [] []

def c3Tree : Logger :=
  .mk "root" Info false [] [("a", .mk "a" Undefined false [] [("b", c3Leaf)])]

theorem C3_inherit_nearest_witness :
    subtreeAt c3Tree ["a", "b"] = some c3Leaf ∧
    thrAt (Logger.Configure c3Tree) ["a", "b"] = ancThr Undefined c3Tree ["a", "b"] ∧
    ancThr Undefined c3Tree ["a", "b"] = some Info :=
  ⟨rfl, C3_inherit_nearest c3Tree ["a", "b"] c3Leaf rfl rfl, rfl⟩

mutual

theorem configureFrom_idem (eff : Level) (l : Logger) :
    configureFrom eff (configureFrom eff l) = configureFrom eff l := by
  cases l with
  | mk n t np o cs =>
      simp only [configureFrom]
      rw [configureChildren_idem eff cs]

theorem configureChildren_idem (eff : Level) (cs : List (String × Logger)) :
    configureChildren eff (configureChildren eff cs) = configureChildren eff cs := by
  cases cs with
  | nil => rfl
  | cons p rest =>
      obtain ⟨k, c⟩ := p
      have heq : (if (configureFrom (if c.threshold = Undefined then eff else c.threshold) c).threshold
            = Undefined then eff
          else (configureFrom (if c.threshold = Undefined then eff else c.threshold) c).threshold)
          = (if c.threshold = Undefined then eff else c.threshold) := by
        rw [configureFrom_threshold]
        by_cases hc : c.threshold = Undefined
        · simp [hc]
        · simp [hc]
      simp only [configureChildren, heq,
        configureFrom_idem (if c.threshold = Undefined then eff else c.threshold) c,
        configureChildren_idem eff rest]

end

/-- C8: the post-configuration inheritance pass is idempotent: Configure run
twice from the root yields exactly the tree (in particular every threshold)
that a single run yields. -/
theorem C8_configure_idempotent (l : Logger) :
    Logger.Configure (Logger.Configure l) = Logger.Configure l := by
  unfold Logger.Configure
  rw [configureFrom_threshold]
  exact configureFrom_idem l.threshold l

/-! ## Configuration resolution (config.go)

config is an ini.File: a map from section name to section.  apply first
builds every Outputter from the non-loggers sections (newOutputterConfig),
then requires the loggers section, then walks its entries (parse the level,
resolve the node with root as a special name, set its threshold, handle the
comma options nopropagate and output names), and only on full success runs
Root.Configure and sets the configured flag.  Errors abort immediately and
nothing done so far is rolled back.
-/

abbrev IniFile := List (String × IniSection)

inductive ConfigError where
  | typeNotSpecified
  | unknownPlugin (name : String)
  | pluginFailed (msg : String)
  | invalidThreshold (th : String)
  | noLoggersSection
  | unknownLevel (lvl : String)
  | unknownOutput (key : String)
deriving DecidableEq

/-- OutputPlugin.CreateOutputter: options in, Outputter or error out. -/
abbrev OutputPlugin := IniSection → Except String Outputter

abbrev PluginRegistry := List (String × OutputPlugin)

/-- newOutputterConfig: resolve the type option, the plugin, the factory, and
the optional threshold option wrapping the result in a ThresholdOutputter. -/
def newOutputterConfig (reg : PluginRegistry) (sec : IniSection) :
    Except ConfigError Outputter :=
  match lookupKV sec "type" with
  | none => .error .typeNotSpecified
  | some name =>
      match lookupKV reg name with
      | none => .error (.unknownPlugin name)
      | some plugin =>
          match plugin sec with
          | .error e => .error (.pluginFailed e)
          | .ok output =>
              match lookupKV sec "threshold" with
              | none => .ok output
              | some th =>
                  match reverseLevelStrings (upper th) with
                  | some lvl => .ok (.thresholdWrap lvl output)
                  | none => .error (.invalidThreshold th)

/-- First loop of config.apply: every section other than loggers and the
empty section becomes an Outputter; the first failure aborts. -/
def buildOutputters (reg : PluginRegistry) :
    IniFile → Except ConfigError (List (String × Outputter))
  | [] => .ok []
  | (key, sec) :: rest =>
      if key = "loggers" ∨ key = "" then buildOutputters reg rest
      else
        match newOutputterConfig reg sec with
        | .error e => .error e
        | .ok o =>
            match buildOutputters reg rest with
            | .error e => .error e
            | .ok m => .ok ((key, o) :: m)

/-- The package-level mutable state touched by apply: the Root tree and the
configured flag. -/
structure LogState where
  root : Logger
  configured : Bool

/-- Pointer write to the node at a key path (no-op on a missing path; the
callers reach only paths that exist). -/
def updateAt (f : Logger → Logger) : Logger → List String → Logger
  | l, [] => f l
  | l, k :: p =>
      match lookupKV l.children k with
      | some c => l.setChildren (updateChild l.children k (updateAt f c p))
      | none => l

/-- Key path of a loggers-section entry: the literal name root is the
hierarchy root, anything else is the dotted path. -/
def entryPath (name : String) : List String :=
  if name = "root" then [] else splitOnChar '.' name

/-- Option tokens after the level: nopropagate sets the flag, any other token
must name a built Outputter, which is attached with AddOutput; an unknown
token aborts with the state mutated so far. -/
def applyOptions (outs : List (String × Outputter)) (path : List String) :
    List String → LogState → LogState × Option ConfigError
  | [], st => (st, none)
  | key :: rest, st =>
      if key = "nopropagate" then
        applyOptions outs path rest
          ⟨updateAt (fun l => l.setNoPropagate true) st.root path, st.configured⟩
      else
        match lookupKV outs key with
        | some o =>
            applyOptions outs path rest
              ⟨updateAt (fun l => l.AddOutput o) st.root path, st.configured⟩
        | none => (st, some (.unknownOutput key))

/-- One loggers-section entry name = level[,option]*: parse the level (abort
on an unknown name before touching any node), resolve the target (Get creates
missing nodes, mutating the tree), set its threshold, then the options. -/
def applyEntry (outs : List (String × Outputter)) (st : LogState) (name val : String) :
    LogState × Option ConfigError :=
  let parts := splitOnChar ',' val
  let lvlName := parts.headD ""
  match reverseLevelStrings (upper lvlName) with
  | none => (st, some (.unknownLevel lvlName))
  | some level =>
      let root1 := if name = "root" then st.root else (Get name st.configured st.root).1
      let root2 := updateAt (fun l => l.setThreshold level) root1 (entryPath name)
      applyOptions outs (entryPath name) parts.tail ⟨root2, st.configured⟩

def applyLoggers (outs : List (String × Outputter)) :
    List (String × String) → LogState → LogState × Option ConfigError
  | [], st => (st, none)
  | (name, val) :: rest, st =>
      let pr := applyEntry outs st name val
      match pr.2 with
      | none => applyLoggers outs rest pr.1
      | some e => (pr.1, some e)

/-- config.apply: outputters first, then the loggers section, then the
entries; on success Root.Configure runs and the configured flag is set. -/
def Config.apply (reg : PluginRegistry) (c : IniFile) (st : LogState) :
    LogState × Option ConfigError :=
  match buildOutputters reg c with
  | .error e => (st, some e)
  | .ok outs =>
      match lookupKV c "loggers" with
      | none => (st, some .noLoggersSection)
      | some entries =>
          let pr := applyLoggers outs entries st
          match pr.2 with
          | some e => (pr.1, some e)
          | none => (⟨Logger.Configure pr.1.root, true⟩, none)

theorem applyOptions_configured (outs : List (String × Outputter)) (path : List String)
    (opts : List String) : ∀ st : LogState,
    ((applyOptions outs path opts st).1).configured = st.configured := by
  induction opts with
  | nil => intro st; rfl
  | cons key rest ih =>
      intro st
      by_cases hk : key = "nopropagate"
      · simp only [applyOptions, if_pos hk]
        exact ih _
      · simp only [applyOptions, if_neg hk]
        cases lookupKV outs key with
        | some o => exact ih _
        | none => rfl

theorem applyEntry_configured (outs : List (String × Outputter)) (st : LogState)
    (name val : String) : ((applyEntry outs st name val).1).configured = st.configured := by
  unfold applyEntry
  cases h : reverseLevelStrings (upper ((splitOnChar ',' val).headD "")) with
  | none => simp only [h]
  | some level =>
      simp only [h]
      exact applyOptions_configured _ _ _ _

theorem applyLoggers_configured (outs : List (String × Outputter))
    (entries : List (String × String)) : ∀ st : LogState,
    ((applyLoggers outs entries st).1).configured = st.configured := by
  induction entries with
  | nil => intro st; rfl
  | cons e rest ih =>
      intro st
      obtain ⟨name, val⟩ := e
      simp only [applyLoggers]
      cases hpr : (applyEntry outs st name val).2 with
      | none =>
          rw [ih (applyEntry outs st name val).1]
          exact applyEntry_configured outs st name val
      | some err => exact applyEntry_configured outs st name val

def c4FailReg : PluginRegistry := [("bad", fun _ => .error "boom")]

def c4Reg : PluginRegistry := [("mock", fun _ => .ok (.plugin "mock" []))]

def c4Cfg : IniFile := [("loggers", [("a", "INFO"), ("b", "WARN,nope")])]

def c4St : LogState := ⟨Root, false⟩

/-- C4: failures of any output section (missing type, unknown plugin type,
invalid threshold option, failing plugin factory) surface from the first loop
of apply, which returns the untouched state: no logger node mutated, no
inheritance pass, configured flag unchanged (first conjunct covers every
buildOutputters failure; the next four exhibit the four error kinds).  In
general a failure in the loggers loop makes apply return exactly the
partially mutated state of that loop, with no inheritance pass applied on top
(sixth conjunct), any failing apply leaves the configured flag unchanged
(seventh), and mutations are not rolled back: the last conjuncts show a
failing apply that has already set the threshold of node a while the
pre-state did not even have that node, with the flag still false. -/
theorem C4_apply_abort :
    (∀ (reg : PluginRegistry) (c : IniFile) (st : LogState) (e : ConfigError),
        buildOutputters reg c = .error e → Config.apply reg c st = (st, some e)) ∧
    (newOutputterConfig c4Reg [] = .error .typeNotSpecified) ∧
    (newOutputterConfig c4Reg [("type", "bogus")] = .error (.unknownPlugin "bogus")) ∧
    (newOutputterConfig c4Reg [("type", "mock"), ("threshold", "XYZ")]
        = .error (.invalidThreshold "XYZ")) ∧
    (newOutputterConfig c4FailReg [("type", "bad")] = .error (.pluginFailed "boom")) ∧
    (∀ (reg : PluginRegistry) (c : IniFile) (st : LogState)
        (outs : List (String × Outputter)) (entries : List (String × String))
        (st1 : LogState) (e : ConfigError),
        buildOutputters reg c = .ok outs → lookupKV c "loggers" = some entries →
        applyLoggers outs entries st = (st1, some e) →
        Config.apply reg c st = (st1, some e)) ∧
    (∀ (reg : PluginRegistry) (c : IniFile) (st st1 : LogState) (e : ConfigError),
        Config.apply reg c st = (st1, some e) → st1.configured = st.configured) ∧
    ((Config.apply [] c4Cfg c4St).2 = some (.unknownOutput "nope") ∧
      thrAt ((Config.apply [] c4Cfg c4St).1).root ["a"] = some Info ∧
      thrAt c4St.root ["a"] = none ∧
      ((Config.apply [] c4Cfg c4St).1).configured = false) := by
  refine ⟨?_, rfl, rfl, rfl, rfl, ?_, ?_, by decide, by decide, by decide, by decide⟩
  · intro reg c st e hb
    unfold Config.apply
    rw [hb]
  · intro reg c st outs entries st1 e hb hl happ
    unfold Config.apply
    rw [hb, hl]
    simp only [happ]
  · intro reg c st st1 e happ
    unfold Config.apply at happ
    cases hb : buildOutputters reg c with
    | error e2 =>
        rw [hb] at happ
        cases happ
        rfl
    | ok outs =>
        rw [hb] at happ
        cases hl : lookupKV c "loggers" with
        | none =>
            rw [hl] at happ
            cases happ
            rfl
        | some entries =>
            rw [hl] at happ
            cases hpr : (applyLoggers outs entries st).2 with
            | some e2 =>
                simp only [hpr] at happ
                cases happ
                rw [← applyLoggers_configured outs entries st]
            | none =>
                simp only [hpr] at happ
                exact Option.noConfusion (congrArg Prod.snd happ)

theorem C4_apply_abort_witness :
    Config.apply c4FailReg [("x", [("type", "bad")])] c4St
      = (c4St, some (.pluginFailed "boom")) :=
  C4_apply_abort.1 c4FailReg [("x", [("type", "bad")])] c4St (.pluginFailed "boom") rfl

/-! ## How repeated configuration changes the tree

Evolves m t t2 records, per key path, what one configuration step may do when
the tree goes from t to t2: outputs only ever grow by appending, a threshold
changes only at a path satisfying m, at a path whose threshold was Undefined,
or at a path that did not exist before, a non-Undefined threshold never
becomes Undefined, and existing nodes never disappear.
-/

theorem subtreeAt_cons (l : Logger) (k : String) (p : List String) :
    subtreeAt l (k :: p) = match lookupKV l.children k with
      | some c => subtreeAt c p
      | none => none := rfl

theorem thrAt_nil (l : Logger) : thrAt l [] = some l.threshold := rfl

theorem thrAt_cons (l : Logger) (k : String) (p : List String) :
    thrAt l (k :: p) = match lookupKV l.children k with
      | some c => thrAt c p
      | none => none := by
  cases h : lookupKV l.children k <;> simp [thrAt, subtreeAt_cons, h]

theorem outputsAt_nil (l : Logger) : outputsAt l [] = l.outputs := rfl

theorem outputsAt_cons (l : Logger) (k : String) (p : List String) :
    outputsAt l (k :: p) = match lookupKV l.children k with
      | some c => outputsAt c p
      | none => [] := by
  cases h : lookupKV l.children k <;> simp [outputsAt, subtreeAt_cons, h]

def Evolves (m : List String → Prop) (t t2 : Logger) : Prop :=
  ∀ p : List String,
    (∃ extra, outputsAt t2 p = outputsAt t p ++ extra) ∧
    (thrAt t2 p = thrAt t p ∨ m p ∨ thrAt t p = some Undefined ∨ thrAt t p = none) ∧
    (∀ v, thrAt t p = some v → v ≠ Undefined → thrAt t2 p ≠ some Undefined) ∧
    (thrAt t p ≠ none → thrAt t2 p ≠ none)

theorem Evolves.refl (m : List String → Prop) (t : Logger) : Evolves m t t := by
  intro p
  exact ⟨⟨[], by simp⟩, Or.inl rfl,
    fun v hv hne => by rw [hv]; exact fun hh => hne (Option.some.inj hh),
    fun h => h⟩

theorem Evolves.mono {m1 m2 : List String → Prop} {t t2 : Logger}
    (hm : ∀ p, m1 p → m2 p) (h : Evolves m1 t t2) : Evolves m2 t t2 := by
  intro p
  obtain ⟨h1, h2, h3, h4⟩ := h p
  refine ⟨h1, ?_, h3, h4⟩
  rcases h2 with h2 | h2 | h2 | h2
  · exact Or.inl h2
  · exact Or.inr (Or.inl (hm p h2))
  · exact Or.inr (Or.inr (Or.inl h2))
  · exact Or.inr (Or.inr (Or.inr h2))

theorem Evolves.trans {m1 m2 : List String → Prop} {t t1 t2 : Logger}
    (ha : Evolves m1 t t1) (hb : Evolves m2 t1 t2) :
    Evolves (fun p => m1 p ∨ m2 p) t t2 := by
  intro p
  obtain ⟨⟨e1, ho1⟩, hthr1, hnr1, hne1⟩ := ha p
  obtain ⟨⟨e2, ho2⟩, hthr2, hnr2, hne2⟩ := hb p
  refine ⟨⟨e1 ++ e2, by rw [ho2, ho1, List.append_assoc]⟩, ?_, ?_, fun h => hne2 (hne1 h)⟩
  · rcases hthr2 with h2 | h2 | h2 | h2
    · rw [h2]
      rcases hthr1 with h1 | h1 | h1 | h1
      · exact Or.inl h1
      · exact Or.inr (Or.inl (Or.inl h1))
      · exact Or.inr (Or.inr (Or.inl h1))
      · exact Or.inr (Or.inr (Or.inr h1))
    · exact Or.inr (Or.inl (Or.inr h2))
    · cases hv : thrAt t p with
      | none => exact Or.inr (Or.inr (Or.inr rfl))
      | some v =>
          by_cases hvu : v = Undefined
          · subst hvu
            exact Or.inr (Or.inr (Or.inl rfl))
          · exact absurd h2 (hnr1 v hv hvu)
    · cases hv : thrAt t p with
      | none => exact Or.inr (Or.inr (Or.inr rfl))
      | some v => exact absurd h2 (hne1 (by rw [hv]; exact fun hh => Option.noConfusion hh))
  · intro v hv hvu
    cases hw : thrAt t1 p with
    | none => exact absurd hw (hne1 (by rw [hv]; exact fun hh => Option.noConfusion hh))
    | some w =>
        have hwu : w ≠ Undefined := by
          intro hwud
          subst hwud
          exact hnr1 v hv hvu hw
        exact hnr2 w hw hwu

/-! ### What Get does to the tree -/

theorem outputsAt_fresh (n : String) (t : Level) (p : List String) :
    outputsAt (Logger.mk n t false [] []) p = [] := by
  cases p with
  | nil => rfl
  | cons k q => rw [outputsAt_cons]; rfl

theorem getAux_outputsAt (f : String) (cfg : Bool) (parts : List String) :
    ∀ (l : Logger) (p : List String),
    outputsAt ((getAux f cfg parts l).1) p = outputsAt l p := by
  induction parts with
  | nil => intro l p; rfl
  | cons part rest ih =>
      intro l p
      cases h : lookupKV l.children part with
      | some c0 =>
          simp only [getAux, h]
          cases p with
          | nil => simp [outputsAt_nil]
          | cons k q =>
              rw [outputsAt_cons, outputsAt_cons, Logger.setChildren_children]
              by_cases hk : k = part
              · subst hk
                rw [lookupKV_updateChild_self _ _ _ _ h, h]
                exact ih c0 q
              · rw [lookupKV_updateChild_ne _ _ _ _ hk]
      | none =>
          simp only [getAux, h]
          cases p with
          | nil => simp [outputsAt_nil]
          | cons k q =>
              rw [outputsAt_cons, outputsAt_cons, Logger.setChildren_children]
              by_cases hk : k = part
              · subst hk
                rw [lookupKV_append_self _ _ _ h, h]
                refine (ih _ q).trans ?_
                cases cfg with
                | true => simp [newLogger, Logger.setThreshold, outputsAt_fresh]
                | false => simp [newLogger, outputsAt_fresh]
              · rw [lookupKV_append_ne _ _ _ _ hk]

theorem getAux_subtree_existing (f : String) (cfg : Bool) (parts : List String) :
    ∀ (l : Logger) (p : List String) (c : Logger), subtreeAt l p = some c →
    ∃ c2, subtreeAt ((getAux f cfg parts l).1) p = some c2 ∧
      c2.threshold = c.threshold ∧ c2.outputs = c.outputs ∧
      c2.noPropagate = c.noPropagate := by
  induction parts with
  | nil => intro l p c h; exact ⟨c, h, rfl, rfl, rfl⟩
  | cons part rest ih =>
      intro l p c hsub
      cases h : lookupKV l.children part with
      | some c0 =>
          simp only [getAux, h]
          cases p with
          | nil =>
              cases hsub
              exact ⟨_, rfl, by simp, by simp, by simp⟩
          | cons k q =>
              rw [subtreeAt_cons] at hsub
              rw [subtreeAt_cons, Logger.setChildren_children]
              by_cases hk : k = part
              · subst hk
                rw [h] at hsub
                rw [lookupKV_updateChild_self _ _ _ _ h]
                exact ih c0 q c hsub
              · rw [lookupKV_updateChild_ne _ _ _ _ hk]
                cases h2 : lookupKV l.children k with
                | some c1 =>
                    rw [h2] at hsub
                    exact ⟨c, hsub, rfl, rfl, rfl⟩
                | none =>
                    rw [h2] at hsub
                    exact Option.noConfusion hsub
      | none =>
          simp only [getAux, h]
          cases p with
          | nil =>
              cases hsub
              exact ⟨_, rfl, by simp, by simp, by simp⟩
          | cons k q =>
              rw [subtreeAt_cons] at hsub
              rw [subtreeAt_cons, Logger.setChildren_children]
              by_cases hk : k = part
              · subst hk
                rw [h] at hsub
                exact Option.noConfusion hsub
              · rw [lookupKV_append_ne _ _ _ _ hk]
                cases h2 : lookupKV l.children k with
                | some c1 =>
                    rw [h2] at hsub
                    exact ⟨c, hsub, rfl, rfl, rfl⟩
                | none =>
                    rw [h2] at hsub
                    exact Option.noConfusion hsub

theorem get_evolves (name : String) (cfg : Bool) (t : Logger) :
    Evolves (fun _ => False) t (Get name cfg t).1 := by
  unfold Get
  intro p
  refine ⟨⟨[], by rw [List.append_nil]; exact getAux_outputsAt name cfg _ t p⟩, ?_, ?_, ?_⟩
  · cases hsub : subtreeAt t p with
    | none =>
        refine Or.inr (Or.inr (Or.inr ?_))
        simp [thrAt, hsub]
    | some c =>
        obtain ⟨c2, hc2, hthr, -, -⟩ :=
          getAux_subtree_existing name cfg (splitOnChar '.' name) t p c hsub
        exact Or.inl (by simp [thrAt, hsub, hc2, hthr])
  · intro v hv hvu
    obtain ⟨c, hsub, hthr⟩ : ∃ c, subtreeAt t p = some c ∧ c.threshold = v := by
      cases hsub : subtreeAt t p with
      | none => rw [thrAt, hsub] at hv; exact Option.noConfusion hv
      | some c =>
          rw [thrAt, hsub] at hv
          exact ⟨c, rfl, Option.some.inj hv⟩
    obtain ⟨c2, hc2, hthr2, -, -⟩ :=
      getAux_subtree_existing name cfg (splitOnChar '.' name) t p c hsub
    rw [thrAt, hc2]
    simp only [Option.map_some']
    rw [hthr2, hthr]
    exact fun hh => hvu (Option.some.inj hh)
  · intro hne
    obtain ⟨c, hsub⟩ : ∃ c, subtreeAt t p = some c := by
      cases hsub : subtreeAt t p with
      | none => rw [thrAt, hsub] at hne; exact absurd rfl hne
      | some c => exact ⟨c, rfl⟩
    obtain ⟨c2, hc2, -, -, -⟩ :=
      getAux_subtree_existing name cfg (splitOnChar '.' name) t p c hsub
    rw [thrAt, hc2]
    exact fun hh => Option.noConfusion hh

/-! ### What a pointer write at a path does to the tree -/

theorem outputsAt_of_none {t : Logger} {p : List String} (h : subtreeAt t p = none) :
    outputsAt t p = [] := by
  unfold outputsAt
  rw [h]

theorem outputsAt_of_some {t c : Logger} {p : List String} (h : subtreeAt t p = some c) :
    outputsAt t p = c.outputs := by
  unfold outputsAt
  rw [h]

theorem thrAt_of_none {t : Logger} {p : List String} (h : subtreeAt t p = none) :
    thrAt t p = none := by
  unfold thrAt
  rw [h]
  rfl

theorem thrAt_of_some {t c : Logger} {p : List String} (h : subtreeAt t p = some c) :
    thrAt t p = some c.threshold := by
  unfold thrAt
  rw [h]
  rfl

theorem updateAt_subtree (f : Logger → Logger) (hc : ∀ x, (f x).children = x.children) :
    ∀ (q : List String) (l : Logger) (p : List String),
      (subtreeAt l p = none → subtreeAt (updateAt f l q) p = none) ∧
      (∀ c, subtreeAt l p = some c →
        (p = q → subtreeAt (updateAt f l q) p = some (f c)) ∧
        (p ≠ q → ∃ c2, subtreeAt (updateAt f l q) p = some c2 ∧
          c2.threshold = c.threshold ∧ c2.outputs = c.outputs ∧
          c2.noPropagate = c.noPropagate)) := by
  intro q
  induction q with
  | nil =>
      intro l p
      constructor
      · intro hnone
        cases p with
        | nil => exact Option.noConfusion hnone
        | cons k p2 =>
            rw [subtreeAt_cons] at hnone
            rw [subtreeAt_cons]
            show (match lookupKV ((f l)).children k with
              | some c => subtreeAt c p2
              | none => none) = none
            rw [hc l]
            exact hnone
      · intro c hsub
        cases p with
        | nil =>
            cases hsub
            exact ⟨fun _ => rfl, fun hne => absurd rfl hne⟩
        | cons k p2 =>
            refine ⟨fun hpq => List.noConfusion hpq, fun _ => ?_⟩
            rw [subtreeAt_cons] at hsub
            refine ⟨c, ?_, rfl, rfl, rfl⟩
            rw [subtreeAt_cons]
            show (match lookupKV ((f l)).children k with
              | some c => subtreeAt c p2
              | none => none) = some c
            rw [hc l]
            exact hsub
  | cons kq q2 ih =>
      intro l p
      cases hq : lookupKV l.children kq with
      | none =>
          simp only [updateAt, hq]
          constructor
          · exact fun h => h
          · intro c hsub
            constructor
            · intro hpq
              subst hpq
              rw [subtreeAt_cons, hq] at hsub
              exact Option.noConfusion hsub
            · intro _
              exact ⟨c, hsub, rfl, rfl, rfl⟩
      | some c0 =>
          simp only [updateAt, hq]
          constructor
          · intro hnone
            cases p with
            | nil => exact Option.noConfusion hnone
            | cons k p2 =>
                rw [subtreeAt_cons] at hnone
                rw [subtreeAt_cons, Logger.setChildren_children]
                by_cases hk : k = kq
                · subst hk
                  rw [hq] at hnone
                  rw [lookupKV_updateChild_self _ _ _ _ hq]
                  exact (ih c0 p2).1 hnone
                · rw [lookupKV_updateChild_ne _ _ _ _ hk]
                  exact hnone
          · intro c hsub
            cases p with
            | nil =>
                cases hsub
                refine ⟨fun hpq => List.noConfusion hpq, fun _ => ?_⟩
                exact ⟨_, rfl, by simp, by simp, by simp⟩
            | cons k p2 =>
                rw [subtreeAt_cons] at hsub
                by_cases hk : k = kq
                · subst hk
                  rw [hq] at hsub
                  constructor
                  · intro hpq
                    have hq2 : p2 = q2 := by injection hpq
                    subst hq2
                    rw [subtreeAt_cons, Logger.setChildren_children,
                      lookupKV_updateChild_self _ _ _ _ hq]
                    exact ((ih c0 p2).2 c hsub).1 rfl
                  · intro hne
                    have hne2 : p2 ≠ q2 := fun hh => hne (by rw [hh])
                    obtain ⟨c2, hc2, h1, h2, h3⟩ := ((ih c0 p2).2 c hsub).2 hne2
                    refine ⟨c2, ?_, h1, h2, h3⟩
                    rw [subtreeAt_cons, Logger.setChildren_children,
                      lookupKV_updateChild_self _ _ _ _ hq]
                    exact hc2
                · constructor
                  · intro hpq
                    injection hpq with h1 h2
                    exact absurd h1 hk
                  · intro _
                    refine ⟨c, ?_, rfl, rfl, rfl⟩
                    rw [subtreeAt_cons, Logger.setChildren_children,
                      lookupKV_updateChild_ne _ _ _ _ hk]
                    exact hsub

/-- Evolution of the tree under a pointer write at path q by a field update f
that keeps the children, only appends to the outputs, and either keeps the
threshold or writes a non-Undefined one. -/
theorem updateAt_evolves (f : Logger → Logger)
    (hc : ∀ x, (f x).children = x.children)
    (hout : ∀ x, ∃ extra, (f x).outputs = x.outputs ++ extra)
    (hthr : ∀ x, (f x).threshold = x.threshold ∨ (f x).threshold ≠ Undefined)
    (q : List String) (t : Logger) :
    Evolves (fun p => p = q) t (updateAt f t q) := by
  intro p
  have hm := updateAt_subtree f hc q t p
  cases hsub : subtreeAt t p with
  | none =>
      have hn := hm.1 hsub
      refine ⟨⟨[], by rw [outputsAt_of_none hsub, outputsAt_of_none hn]; rfl⟩, ?_, ?_, ?_⟩
      · exact Or.inr (Or.inr (Or.inr (thrAt_of_none hsub)))
      · intro v hv
        rw [thrAt_of_none hsub] at hv
        exact Option.noConfusion hv
      · intro hne
        exact absurd (thrAt_of_none hsub) hne
  | some c =>
      by_cases hpq : p = q
      · have hs2 := (hm.2 c hsub).1 hpq
        obtain ⟨extra, hext⟩ := hout c
        refine ⟨⟨extra, by rw [outputsAt_of_some hsub, outputsAt_of_some hs2, hext]⟩,
          Or.inr (Or.inl hpq), ?_, ?_⟩
        · intro v hv hvu
          rw [thrAt_of_some hsub] at hv
          rw [thrAt_of_some hs2]
          rcases hthr c with ht | ht
          · rw [ht, hv]
            exact fun hh => hvu (Option.some.inj hh)
          · exact fun hh => ht (Option.some.inj hh)
        · intro _
          rw [thrAt_of_some hs2]
          exact fun hh => Option.noConfusion hh
      · obtain ⟨c2, hs2, h1, h2, h3⟩ := (hm.2 c hsub).2 hpq
        refine ⟨⟨[], by rw [outputsAt_of_some hsub, outputsAt_of_some hs2, h2,
          List.append_nil]⟩, ?_, ?_, ?_⟩
        · exact Or.inl (by rw [thrAt_of_some hsub, thrAt_of_some hs2, h1])
        · intro v hv hvu
          rw [thrAt_of_some hsub] at hv
          rw [thrAt_of_some hs2, h1, hv]
          exact fun hh => hvu (Option.some.inj hh)
        · intro _
          rw [thrAt_of_some hs2]
          exact fun hh => Option.noConfusion hh

/-! ### What Configure does to the tree -/

theorem effAtKey_cons_notU (p : List String) :
    ∀ (k : String) (eff : Level) (l c : Logger),
    subtreeAt l (k :: p) = some c → c.threshold ≠ Undefined →
    effAtKey eff l (k :: p) = some c.threshold := by
  induction p with
  | nil =>
      intro k eff l c hsub hne
      rw [subtreeAt_cons] at hsub
      cases h1 : lookupKV l.children k with
      | none => rw [h1] at hsub; exact Option.noConfusion hsub
      | some c1 =>
          rw [h1] at hsub
          cases hsub
          simp only [effAtKey, h1]
          rw [if_neg hne]
  | cons k2 p ih =>
      intro k eff l c hsub hne
      rw [subtreeAt_cons] at hsub
      cases h1 : lookupKV l.children k with
      | none => rw [h1] at hsub; exact Option.noConfusion hsub
      | some c1 =>
          rw [h1] at hsub
          simp only [effAtKey, h1]
          exact ih k2 _ c1 c hsub hne

theorem configure_evolves (t : Logger) :
    Evolves (fun _ => False) t (Logger.Configure t) := by
  unfold Logger.Configure
  intro p
  cases hsub : subtreeAt t p with
  | none =>
      have hn : subtreeAt (configureFrom t.threshold t) p = none :=
        subtreeAt_configureFrom_none p t.threshold t hsub
      refine ⟨⟨[], by rw [outputsAt_of_none hsub, outputsAt_of_none hn]; rfl⟩, ?_, ?_, ?_⟩
      · exact Or.inr (Or.inr (Or.inr (thrAt_of_none hsub)))
      · intro v hv
        rw [thrAt_of_none hsub] at hv
        exact Option.noConfusion hv
      · intro hne
        exact absurd (thrAt_of_none hsub) hne
  | some c =>
      obtain ⟨e2, hs2⟩ := subtreeAt_configureFrom p t.threshold t c hsub
      have hout : outputsAt (configureFrom t.threshold t) p = outputsAt t p := by
        rw [outputsAt_of_some hsub, outputsAt_of_some hs2,
          (configureFrom_fields e2 c).2.2]
      have hthr2 : thrAt (configureFrom t.threshold t) p = effAtKey t.threshold t p :=
        thrAt_configureFrom p t.threshold t
      refine ⟨⟨[], by rw [hout, List.append_nil]⟩, ?_, ?_, ?_⟩
      · by_cases hcu : c.threshold = Undefined
        · exact Or.inr (Or.inr (Or.inl (by rw [thrAt_of_some hsub, hcu])))
        · cases p with
          | nil =>
              refine Or.inl ?_
              rw [thrAt_nil, thrAt_nil, configureFrom_threshold]
          | cons k p2 =>
              refine Or.inl ?_
              rw [hthr2, effAtKey_cons_notU p2 k t.threshold t c hsub hcu,
                thrAt_of_some hsub]
      · intro v hv hvu
        rw [thrAt_of_some hsub] at hv
        have hcu : c.threshold ≠ Undefined := by
          intro hh
          rw [hh] at hv
          exact hvu (Option.some.inj hv).symm
        cases p with
        | nil =>
            have hct : t = c := Option.some.inj hsub
            rw [thrAt_nil, configureFrom_threshold, hct]
            exact fun hh => hcu (Option.some.inj hh)
        | cons k p2 =>
            rw [hthr2, effAtKey_cons_notU p2 k t.threshold t c hsub hcu]
            exact fun hh => hcu (Option.some.inj hh)
      · intro _
        rw [thrAt_of_some hs2]
        exact fun hh => Option.noConfusion hh

/-! ### Evolution across the configuration steps -/

theorem reverseLevelStrings_ne_undefined (s : String) (v : Level)
    (h : reverseLevelStrings s = some v) : v ≠ Undefined := by
  intro hv
  subst hv
  unfold reverseLevelStrings at h
  split_ifs at h <;>
    simp [Fatal, Error, Warn, Notice, Info, Debug, Trace, Undefined] at h

theorem applyOptions_evolves (outs : List (String × Outputter)) (path : List String)
    (opts : List String) : ∀ st : LogState,
    Evolves (fun p => p = path) st.root ((applyOptions outs path opts st).1).root := by
  induction opts with
  | nil => intro st; exact Evolves.refl _ _
  | cons key rest ih =>
      intro st
      by_cases hk : key = "nopropagate"
      · simp only [applyOptions, if_pos hk]
        have h1 : Evolves (fun p => p = path) st.root
            (updateAt (fun l => l.setNoPropagate true) st.root path) :=
          updateAt_evolves _ (fun x => (Logger.setNoPropagate_fields x true).2.2.2.2)
            (fun x => ⟨[], by
              rw [(Logger.setNoPropagate_fields x true).2.2.2.1, List.append_nil]⟩)
            (fun x => Or.inl (Logger.setNoPropagate_fields x true).2.1) path st.root
        have h2 := ih ⟨updateAt (fun l => l.setNoPropagate true) st.root path, st.configured⟩
        exact (h1.trans h2).mono (fun p hp => hp.elim id id)
      · simp only [applyOptions, if_neg hk]
        cases ho : lookupKV outs key with
        | some o =>
            have h1 : Evolves (fun p => p = path) st.root
                (updateAt (fun l => l.AddOutput o) st.root path) :=
              updateAt_evolves _ (fun x => (Logger.AddOutput_fields x o).2.2.2.2)
                (fun x => ⟨[o], (Logger.AddOutput_fields x o).2.2.2.1⟩)
                (fun x => Or.inl (Logger.AddOutput_fields x o).2.1) path st.root
            have h2 := ih ⟨updateAt (fun l => l.AddOutput o) st.root path, st.configured⟩
            exact (h1.trans h2).mono (fun p hp => hp.elim id id)
        | none => exact Evolves.refl _ _

theorem applyEntry_evolves (outs : List (String × Outputter)) (st : LogState)
    (name val : String) :
    Evolves (fun p => p = entryPath name) st.root ((applyEntry outs st name val).1).root := by
  unfold applyEntry
  cases hl : reverseLevelStrings (upper ((splitOnChar ',' val).headD "")) with
  | none =>
      simp only [hl]
      exact Evolves.refl _ _
  | some level =>
      simp only [hl]
      have hlev : level ≠ Undefined := reverseLevelStrings_ne_undefined _ _ hl
      have h1 : Evolves (fun _ => False) st.root
          (if name = "root" then st.root else (Get name st.configured st.root).1) := by
        by_cases hn : name = "root"
        · rw [if_pos hn]
          exact Evolves.refl _ _
        · rw [if_neg hn]
          exact get_evolves name st.configured st.root
      have h2 : Evolves (fun p => p = entryPath name)
          (if name = "root" then st.root else (Get name st.configured st.root).1)
          (updateAt (fun l => l.setThreshold level)
            (if name = "root" then st.root else (Get name st.configured st.root).1)
            (entryPath name)) :=
        updateAt_evolves _ (fun x => (Logger.setThreshold_fields x level).2.2.2.2)
          (fun x => ⟨[], by
            rw [(Logger.setThreshold_fields x level).2.2.2.1, List.append_nil]⟩)
          (fun x => Or.inr (by
            rw [(Logger.setThreshold_fields x level).2.1]; exact hlev))
          (entryPath name) _
      have h3 := applyOptions_evolves outs (entryPath name) (splitOnChar ',' val).tail
        ⟨updateAt (fun l => l.setThreshold level)
          (if name = "root" then st.root else (Get name st.configured st.root).1)
          (entryPath name), st.configured⟩
      exact ((h1.trans h2).trans h3).mono (fun p hp => by
        rcases hp with (hp | hp) | hp
        · exact hp.elim
        · exact hp
        · exact hp)

theorem applyLoggers_evolves (outs : List (String × Outputter))
    (entries : List (String × String)) : ∀ st : LogState,
    Evolves (fun p => ∃ nv ∈ entries, entryPath nv.1 = p) st.root
      ((applyLoggers outs entries st).1).root := by
  induction entries with
  | nil => intro st; exact Evolves.refl _ _
  | cons e rest ih =>
      intro st
      obtain ⟨name, val⟩ := e
      simp only [applyLoggers]
      have he := applyEntry_evolves outs st name val
      cases hpr : (applyEntry outs st name val).2 with
      | some err =>
          simp only [hpr]
          exact he.mono (fun p hp => ⟨(name, val), List.mem_cons_self _ _, hp.symm⟩)
      | none =>
          simp only [hpr]
          have h2 := ih (applyEntry outs st name val).1
          exact (he.trans h2).mono (fun p hp => by
            rcases hp with hp | ⟨nv, hmem, hnv⟩
            · exact ⟨(name, val), List.mem_cons_self _ _, hp.symm⟩
            · exact ⟨nv, List.mem_cons_of_mem _ hmem, hnv⟩)

/-- C9 (amended): an apply call never clears prior state: along every key
path, outputters are only appended to the existing output list, a threshold
changes only at a node the loggers section of the configuration mentions, at
a node whose threshold was still Undefined (the inheritance pass may fill
those in, also for unmentioned nodes), or at a node that did not exist
before, and no existing non-Undefined threshold is ever reset to Undefined. -/
theorem C9_reapply_merge (reg : PluginRegistry) (c : IniFile) (st st2 : LogState)
    (r : Option ConfigError) (entries : List (String × String))
    (happ : Config.apply reg c st = (st2, r))
    (hentries : lookupKV c "loggers" = some entries) (p : List String) :
    (∃ extra, outputsAt st2.root p = outputsAt st.root p ++ extra) ∧
    (thrAt st2.root p = thrAt st.root p ∨ (∃ nv ∈ entries, entryPath nv.1 = p) ∨
      thrAt st.root p = some Undefined ∨ thrAt st.root p = none) ∧
    (∀ v, thrAt st.root p = some v → v ≠ Undefined →
      thrAt st2.root p ≠ some Undefined) := by
  have hev : Evolves (fun q => ∃ nv ∈ entries, entryPath nv.1 = q) st.root st2.root := by
    unfold Config.apply at happ
    cases hb : buildOutputters reg c with
    | error e =>
        rw [hb] at happ
        cases happ
        exact Evolves.refl _ _
    | ok outs =>
        rw [hb, hentries] at happ
        have hl := applyLoggers_evolves outs entries st
        cases hpr : (applyLoggers outs entries st).2 with
        | some e =>
            simp only [hpr] at happ
            cases happ
            exact hl
        | none =>
            simp only [hpr] at happ
            cases happ
            have hcfg := configure_evolves ((applyLoggers outs entries st).1).root
            exact (hl.trans hcfg).mono (fun q hq => hq.elim id (fun hf => hf.elim))
  obtain ⟨h1, h2, h3, -⟩ := hev p
  exact ⟨h1, h2, h3⟩

def c9st0 : LogState := ⟨Root, false⟩

def c9cfg1 : IniFile := [("loggers", [("a", "INFO")])]

def c9st1 : LogState := (Config.apply [] c9cfg1 c9st0).1

def c9st2 : LogState := ⟨(Get "b" c9st1.configured c9st1.root).1, c9st1.configured⟩

def c9cfg2 : IniFile := [("loggers", [("root", "WARN")])]

theorem C9_reapply_merge_witness :
    (∃ extra, outputsAt ((Config.apply [] c9cfg2 c9st2).1).root ["b"]
        = outputsAt c9st2.root ["b"] ++ extra) ∧
    (thrAt ((Config.apply [] c9cfg2 c9st2).1).root ["b"] = thrAt c9st2.root ["b"] ∨
      (∃ nv ∈ [("root", "WARN")], entryPath nv.1 = ["b"]) ∨
      thrAt c9st2.root ["b"] = some Undefined ∨ thrAt c9st2.root ["b"] = none) ∧
    (∀ v, thrAt c9st2.root ["b"] = some v → v ≠ Undefined →
      thrAt ((Config.apply [] c9cfg2 c9st2).1).root ["b"] ≠ some Undefined) :=
  C9_reapply_merge [] c9cfg2 c9st2 (Config.apply [] c9cfg2 c9st2).1
    (Config.apply [] c9cfg2 c9st2).2 [("root", "WARN")] rfl rfl ["b"]

/-- C9 counterexample: the claim says a second successful apply overwrites
thresholds only for nodes the new configuration mentions.  Run on the concrete
history (first apply with loggers a=INFO, then a Get of b, which inherits the
still-Undefined root threshold, then a second successful apply with loggers
root=WARN), the unmentioned node b has its threshold overwritten from
Undefined to Warn by the inheritance pass of the second apply. -/
theorem C9_counterexample :
    (Config.apply [] c9cfg1 c9st0).2 = none ∧
    (Config.apply [] c9cfg2 c9st2).2 = none ∧
    (∀ nv ∈ [("root", "WARN")], entryPath nv.1 ≠ ["b"]) ∧
    thrAt c9st2.root ["b"] = some Undefined ∧
    thrAt ((Config.apply [] c9cfg2 c9st2).1).root ["b"] = some Warn ∧
    Warn ≠ Undefined := by
  refine ⟨by decide, by decide, by decide, by decide, by decide, by decide⟩

end Logging
